import Mathlib

/-!
Verification of the region-compositing diffusion pipeline
(`diffusiontools/canvas.py`): a shallow embedding of its data model
(canvas regions, mask builders) and of the algorithmic core of
`StableDiffusionCanvasPipeline.__call__` (latent seeding with reroll
overrides, image-region injection scheduling, and per-position blending
of region noise predictions), together with theorems settling the
specification claims.

Tensor values are modelled as exact rationals (reals where the source
uses `exp`/`sqrt`); tensors become functions from integer coordinates to
values; Python exceptions become `Except String`; the external collaborators
(RNG, scheduler `add_noise`, tokenizer, text encoder, image resize) are
universally quantified function parameters.
-/

namespace CanvasSpec

/-- Embedding of the `MaskModes` Python `Enum` (`canvas.py`, lines 22-26). -/
inductive MaskModes where
  | CONSTANT
  | GAUSSIAN
  | QUARTIC
deriving DecidableEq, Repr

/-- `MaskModes.<member>.value`: the raw string value of each enum member. -/
def MaskModes.value : MaskModes → String
  | .CONSTANT => "constant"
  | .GAUSSIAN => "gaussian"
  | .QUARTIC => "quartic"

/-- Embedding of the `CanvasRegion` dataclass after `__post_init__` has run:
the four pixel bounds plus the four derived latent bounds
(`canvas.py`, lines 29-42). -/
structure CanvasRegion where
  row_init : ℤ
  row_end : ℤ
  col_init : ℤ
  col_end : ℤ
  latent_row_init : ℤ
  latent_row_end : ℤ
  latent_col_init : ℤ
  latent_col_end : ℤ
deriving DecidableEq, Repr

/-- Embedding of `CanvasRegion.__post_init__` (`canvas.py`, lines 37-42):
computes the latent coordinates by floor division by 8 (Python `//`),
performing no validation of the pixel bounds, hence never raising. The
`Except` return type records that dataclass construction is where a
`__post_init__` could raise. -/
def canvasRegionPostInit (row_init row_end col_init col_end : ℤ) :
    Except String CanvasRegion :=
  Except.ok
    { row_init := row_init
      row_end := row_end
      col_init := col_init
      col_end := col_end
      latent_row_init := Int.fdiv row_init 8
      latent_row_end := Int.fdiv row_end 8
      latent_col_init := Int.fdiv col_init 8
      latent_col_end := Int.fdiv col_end 8 }

/-- `CanvasRegion.height` property (`canvas.py`, lines 48-50). -/
def CanvasRegion.height (reg : CanvasRegion) : ℤ := reg.row_end - reg.row_init

/-- `CanvasRegion.width` property (`canvas.py`, lines 44-46). -/
def CanvasRegion.width (reg : CanvasRegion) : ℤ := reg.col_end - reg.col_init

/-- Latent-space height of a region (`latent_row_end - latent_row_init`),
the row extent of every tensor slice taken at this region. -/
def CanvasRegion.latentHeight (reg : CanvasRegion) : ℤ :=
  reg.latent_row_end - reg.latent_row_init

/-- Latent-space width of a region (`latent_col_end - latent_col_init`). -/
def CanvasRegion.latentWidth (reg : CanvasRegion) : ℤ :=
  reg.latent_col_end - reg.latent_col_init

/-- A latent canvas position `(r, c)` lies inside the half-open latent
rectangle of `reg`: this is the index set touched by every slice
`[:, :, latent_row_init:latent_row_end, latent_col_init:latent_col_end]`. -/
def coversLatent (reg : CanvasRegion) (r c : ℤ) : Prop :=
  reg.latent_row_init ≤ r ∧ r < reg.latent_row_end ∧
    reg.latent_col_init ≤ c ∧ c < reg.latent_col_end

instance (reg : CanvasRegion) (r c : ℤ) : Decidable (coversLatent reg r c) := by
  unfold coversLatent
  infer_instance

/-- The runtime value held in the `mask_type` field: the field is declared
with type `MaskModes`, but nothing prevents a caller from storing the raw
string instead (Python is dynamically typed), and the two behave differently
in the dict lookup of `compute_mask_weights`. -/
inductive MaskTypeValue where
  | enumMember (m : MaskModes)
  | str (s : String)
deriving DecidableEq, Repr

/-- Python `==` between a candidate `mask_type` value and a `str` dict key:
a plain `Enum` member is never equal to its raw string value, so only a
`str` runtime value can match (`MaskModes` is a plain `Enum`, not a
`str`-mixin). -/
def maskTypeEqStr (k : MaskTypeValue) (s : String) : Bool :=
  match k with
  | .enumMember _ => false
  | .str s2 => s2 == s

/-- The three mask builder methods of `MaskWeightsBuilder`
(`_constant_weights`, `_gaussian_weights`, `_quartic_weights`). -/
inductive MaskBuilderKind where
  | constantB
  | gaussianB
  | quarticB
deriving DecidableEq, Repr

/-- The `MASK_BUILDERS` dict of `compute_mask_weights`
(`canvas.py`, lines 108-112): keys are the enum members' `.value` strings. -/
def MASK_BUILDERS : List (String × MaskBuilderKind) :=
  [(MaskModes.CONSTANT.value, MaskBuilderKind.constantB),
   (MaskModes.GAUSSIAN.value, MaskBuilderKind.gaussianB),
   (MaskModes.QUARTIC.value, MaskBuilderKind.quarticB)]

/-- Embedding of the dispatch in `MaskWeightsBuilder.compute_mask_weights`
(`canvas.py`, line 113): `MASK_BUILDERS[region.mask_type]`, a Python dict
lookup that raises `KeyError` when no key compares equal to the subscript. -/
def computeMaskWeightsDispatch (mask_type : MaskTypeValue) :
    Except String MaskBuilderKind :=
  match MASK_BUILDERS.find? (fun p => maskTypeEqStr mask_type p.1) with
  | some p => Except.ok p.2
  | none => Except.error "KeyError"

/-- Embedding of the `Text2ImageRegion` dataclass state relevant to the
two-phase tokenize/encode protocol (`canvas.py`, lines 61-77). `Tok` and
`Enc` abstract the tokenizer output and text-encoder output types. -/
structure Text2ImageRegion (Tok Enc : Type) where
  prompt : String
  guidance_scale : ℚ
  tokenized_prompt : Option Tok
  encoded_prompt : Option Enc
deriving Repr

/-- `Text2ImageRegion.tokenize_prompt` (`canvas.py`, lines 70-72): stores
the tokenizer's output for the region's prompt. -/
def tokenizePrompt {Tok Enc : Type} (tokenizer : String → Tok)
    (r : Text2ImageRegion Tok Enc) : Text2ImageRegion Tok Enc :=
  { r with tokenized_prompt := some (tokenizer r.prompt) }

/-- `Text2ImageRegion.encode_prompt` (`canvas.py`, lines 74-77): asserts
that the prompt has been tokenized, then stores the text encoder's output
on the tokenized prompt. On assertion failure the region is not updated
(the error propagates before any assignment). -/
def encodePrompt {Tok Enc : Type} (text_encoder : Tok → Enc)
    (r : Text2ImageRegion Tok Enc) : Except String (Text2ImageRegion Tok Enc) :=
  match r.tokenized_prompt with
  | none => Except.error "Prompt in diffusion region must be tokenized before encoding"
  | some tp => Except.ok { r with encoded_prompt := some (text_encoder tp) }

/-- Embedding of the `Image2ImageRegion` dataclass after a successful
`__post_init__` (`canvas.py`, lines 80-93): canvas bounds, the
already-resized reference image, and the strength. `Img` abstracts the
image tensor type. -/
structure Image2ImageRegion (Img : Type) where
  region : CanvasRegion
  reference_image : Img
  strength : ℚ
deriving Repr

/-- Embedding of `Image2ImageRegion.__post_init__` (`canvas.py`, lines
86-93): runs `CanvasRegion.__post_init__` (latent coordinates, no bound
checks), raises if the reference image is missing, raises if the strength
is outside `[0, 1]`, and otherwise stores the reference image resized to
`[height, width]` of the region. `resize img h w` abstracts
`torchvision.transforms.functional.resize(img, size=[h, w])`. -/
def image2ImageRegionPostInit {Img : Type} (resize : Img → ℤ → ℤ → Img)
    (row_init row_end col_init col_end : ℤ)
    (reference_image : Option Img) (strength : ℚ) :
    Except String (Image2ImageRegion Img) :=
  match canvasRegionPostInit row_init row_end col_init col_end with
  | Except.error e => Except.error e
  | Except.ok reg =>
    match reference_image with
    | none => Except.error "Must provide a reference image when creating an Image2ImageRegion"
    | some img =>
      if strength < 0 ∨ strength > 1 then
        Except.error "The value of strength should in [0.0, 1.0]"
      else
        Except.ok
          { region := reg
            reference_image := resize img reg.height reg.width
            strength := strength }

/-- The per-region data consumed by the mask builders: a canvas region
together with its `mask_weight` (`DiffusionRegion`, `canvas.py`, lines
54-58). The `mask_type` runtime value is modelled separately as
`MaskTypeValue` for the dispatch. -/
structure DiffusionRegionData where
  region : CanvasRegion
  mask_weight : ℚ
deriving Repr

/-- `np.square`. -/
def npSquare (q : ℚ) : ℚ := q * q

/-- `MaskWeightsBuilder._constant_weights` (`canvas.py`, lines 115-119):
`torch.ones(nbatch, dim, latent_height, latent_width) * mask_weight`, read
as the value of the result tensor at index `(b, ch, y, x)`. -/
def constantWeightVal (d : DiffusionRegionData) (b ch : ℕ) (y x : ℤ) : ℚ :=
  d.mask_weight

/-- The 1-D probability profile of `MaskWeightsBuilder._gaussian_weights`
(`canvas.py`, lines 126-130): with `var = 0.01` and
`midpoint = (extent - 1)/2`,
`exp(-(k-midpoint)*(k-midpoint)/(extent*extent)/(2*var)) / sqrt(2*pi*var)`. -/
noncomputable def gaussianProb (extent k : ℤ) : ℝ :=
  Real.exp (-(((k : ℝ) - ((extent : ℝ) - 1) / 2) * ((k : ℝ) - ((extent : ℝ) - 1) / 2)) /
      ((extent : ℝ) * (extent : ℝ)) / (2 * (1 / 100))) /
    Real.sqrt (2 * Real.pi * (1 / 100))

/-- `MaskWeightsBuilder._gaussian_weights` (`canvas.py`, lines 121-133):
`torch.tile(torch.tensor(np.outer(y_probs, x_probs) * mask_weight),
(nbatch, dim, 1, 1))`, read as the value at index `(b, ch, y, x)`; tiling
makes the value independent of `b` and `ch`. -/
noncomputable def gaussianWeightVal (d : DiffusionRegionData) (b ch : ℕ) (y x : ℤ) : ℝ :=
  gaussianProb d.region.latentHeight y * gaussianProb d.region.latentWidth x *
    (d.mask_weight : ℝ)

/-- `quartic_constant = 15. / 16.` (`canvas.py`, line 140). -/
def quarticConstant : ℚ := 15 / 16

/-- The divisor of the quartic support normalization: the latent extent
minus one (`region.latent_col_end - region.latent_col_init - 1`,
`canvas.py`, lines 142 and 144). -/
def quarticDenominator (extent : ℤ) : ℚ := (extent : ℚ) - 1

/-- The quartic support coordinate of local index `k` in an axis of latent
extent `extent` (`canvas.py`, lines 142/144):
`k / (extent - 1) * 1.99 - 1.99 / 2`. -/
def quarticSupport (extent k : ℤ) : ℚ :=
  (k : ℚ) / quarticDenominator extent * (199 / 100) - (199 / 100) / 2

/-- The 1-D probability profile of `MaskWeightsBuilder._quartic_weights`
(`canvas.py`, lines 143/145): `quartic_constant * np.square(1 - np.square(support))`. -/
def quarticProb (extent k : ℤ) : ℚ :=
  quarticConstant * npSquare (1 - npSquare (quarticSupport extent k))

/-- `MaskWeightsBuilder._quartic_weights` (`canvas.py`, lines 135-148):
`torch.tile(torch.tensor(np.outer(y_probs, x_probs) * mask_weight),
(nbatch, dim, 1, 1))`, read as the value at index `(b, ch, y, x)`. -/
def quarticWeightVal (d : DiffusionRegionData) (b ch : ℕ) (y x : ℤ) : ℚ :=
  quarticProb d.region.latentHeight y * quarticProb d.region.latentWidth x *
    d.mask_weight

/-- Tensor slice assignment
`latents[:, :, lri:lre, lci:lce] = vals` (for one batch/channel plane):
inside the region's latent rectangle the new value comes from `vals` at
region-local coordinates, outside it the old value is kept. -/
def sliceAssign (latents : ℤ → ℤ → ℚ) (reg : CanvasRegion) (vals : ℤ → ℤ → ℚ) :
    ℤ → ℤ → ℚ :=
  fun r c =>
    if coversLatent reg r c then
      vals (r - reg.latent_row_init) (c - reg.latent_col_init)
    else latents r c

/-- The two tensors produced by the seeding phase: `init_noise` (retained)
and the working `latents`. -/
structure SeedingState where
  init_noise : ℤ → ℤ → ℚ
  latents : ℤ → ℤ → ℚ

/-- The reroll loop of `__call__` (`canvas.py`, lines 202-205): for each
`(region, seed_reroll)` pair in order, overwrite that region's latent
sub-rectangle of the working latents with a tensor drawn from a fresh
generator seeded with `seed_reroll`. `randn s` abstracts the grid of
values drawn by `torch.randn` under a generator freshly seeded with `s`. -/
def applyRerolls (randn : ℕ → ℤ → ℤ → ℚ) (base : ℤ → ℤ → ℚ)
    (seed_reroll_regions : List (CanvasRegion × ℕ)) : ℤ → ℤ → ℚ :=
  seed_reroll_regions.foldl (fun lat p => sliceAssign lat p.1 (randn p.2)) base

/-- The seeding phase of `__call__` (`canvas.py`, lines 196-205):
`init_noise = torch.randn(latents_shape, generator seeded with seed)`,
`latents = init_noise.clone()`, then the reroll overrides are applied to
`latents` only (the clone makes the two tensors non-aliasing). -/
def seedLatents (randn : ℕ → ℤ → ℤ → ℚ) (seed : ℕ)
    (seed_reroll_regions : List (CanvasRegion × ℕ)) : SeedingState :=
  { init_noise := randn seed
    latents := applyRerolls randn (randn seed) seed_reroll_regions }

/-- Python `int()` applied to a float: truncation toward zero. -/
def pyInt (q : ℚ) : ℤ := if 0 ≤ q then ⌊q⌋ else -⌊-q⌋

/-- The image-region injection cutoff (`canvas.py`, lines 263-264):
`influence_step = min(int(num_inference_steps * strength) + offset,
num_inference_steps)`. -/
def influenceStep (num_inference_steps : ℕ) (strength : ℚ) (offset : ℕ) : ℤ :=
  min (pyInt ((num_inference_steps : ℚ) * strength) + (offset : ℤ))
    (num_inference_steps : ℤ)

/-- One image-driven region's turn in the injection loop (`canvas.py`,
lines 262-270), at loop index `i` with timestep value `t`: if
`i < influence_step`, overwrite the region's latent sub-rectangle with
`scheduler.add_noise(reference_latents, init_noise[region slice], t)`
applied elementwise; otherwise leave the latents untouched. `add_noise`
abstracts the scheduler's forward-noising of one scalar entry. -/
def img2imgInject (add_noise : ℚ → ℚ → ℤ → ℚ)
    (reference_latents init_noise latents : ℤ → ℤ → ℚ)
    (reg : CanvasRegion) (strength : ℚ)
    (num_inference_steps offset i : ℕ) (t : ℤ) : ℤ → ℤ → ℚ :=
  if (i : ℤ) < influenceStep num_inference_steps strength offset then
    sliceAssign latents reg (fun dr dc =>
      add_noise (reference_latents dr dc)
        (init_noise (reg.latent_row_init + dr) (reg.latent_col_init + dc)) t)
  else latents

/-- One text-driven region's contribution to the blend stage: its canvas
rectangle, its guided noise prediction (region-local coordinates) and its
precomputed mask weights (region-local coordinates), i.e. one triple of
the `zip(text2image_regions, noise_preds_regions, mask_weights)` of
`canvas.py`, line 302. -/
structure BlendInput where
  reg : CanvasRegion
  noise_pred : ℤ → ℤ → ℚ
  mask_w : ℤ → ℤ → ℚ

/-- A region's guided prediction at canvas position `(r, c)`. -/
def regionPredAt (b : BlendInput) (r c : ℤ) : ℚ :=
  b.noise_pred (r - b.reg.latent_row_init) (c - b.reg.latent_col_init)

/-- A region's mask weight at canvas position `(r, c)`. -/
def regionWeightAt (b : BlendInput) (r c : ℤ) : ℚ :=
  b.mask_w (r - b.reg.latent_row_init) (c - b.reg.latent_col_init)

/-- The accumulated weighted prediction at a canvas position
(`canvas.py`, lines 299 and 303): starting from `torch.zeros`, each region
adds `noise_pred_region * mask_weights_region` over its own slice. -/
def accumNoisePred (l : List BlendInput) (r c : ℤ) : ℚ :=
  (l.map (fun b =>
    if coversLatent b.reg r c then regionPredAt b r c * regionWeightAt b r c
    else 0)).sum

/-- The accumulated contributor weights at a canvas position
(`canvas.py`, lines 300 and 304): starting from `torch.zeros`, each region
adds `mask_weights_region` over its own slice. -/
def accumContributors (l : List BlendInput) (r c : ℤ) : ℚ :=
  (l.map (fun b =>
    if coversLatent b.reg r c then regionWeightAt b r c else 0)).sum

/-- The largest finite float32 value, which `torch.nan_to_num` substitutes
for `+inf` by default. -/
def float32Max : ℚ := 340282346638528859811704183484516925440

/-- Elementwise `noise_pred /= contributors` followed by
`torch.nan_to_num(noise_pred)` (`canvas.py`, lines 306-307) on one entry:
`0/0` is `NaN` and becomes `0`; `x/0` with `x ≠ 0` is `±inf` and becomes
`±float32Max`; otherwise exact division. -/
def nanToNumDiv (num den : ℚ) : ℚ :=
  if den = 0 then (if num = 0 then 0 else if 0 < num then float32Max else -float32Max)
  else num / den

/-- The blended noise prediction at a canvas position (`canvas.py`, lines
298-307). -/
def blendedNoisePred (l : List BlendInput) (r c : ℤ) : ℚ :=
  nanToNumDiv (accumNoisePred l r c) (accumContributors l r c)

/-- Whether an `Except` result is a success. -/
def exceptIsOk {α : Type} (e : Except String α) : Bool :=
  match e with
  | .ok _ => true
  | .error _ => false

/-- A sample region whose latent rectangle is the single cell `(0, 0)`
(pixel rectangle `[0,8) × [0,8)`), as produced by `__post_init__`. -/
def sampleRegion8 : CanvasRegion :=
  { row_init := 0, row_end := 8, col_init := 0, col_end := 8,
    latent_row_init := 0, latent_row_end := 1,
    latent_col_init := 0, latent_col_end := 1 }

/-- A sample region with latent extent 3 in both axes (pixel rectangle
`[0,24) × [0,24)`), as produced by `__post_init__`. -/
def sampleRegion24 : CanvasRegion :=
  { row_init := 0, row_end := 24, col_init := 0, col_end := 24,
    latent_row_init := 0, latent_row_end := 3,
    latent_col_init := 0, latent_col_end := 3 }

/-- A sample diffusion-region datum over `sampleRegion24` with unit mask
weight. -/
def sampleDiff3 : DiffusionRegionData :=
  { region := sampleRegion24, mask_weight := 1 }

/-- A concrete RNG model: every draw under seed `s` is the constant grid
`s` (distinct seeds give distinct tensors, as a real generator does with
overwhelming probability). -/
def constRandn : ℕ → ℤ → ℤ → ℚ := fun s _ _ => (s : ℚ)

/-- Two reroll overrides naming the same region with different seeds. -/
def overlapOverrides : List (CanvasRegion × ℕ) :=
  [(sampleRegion8, 1), (sampleRegion8, 2)]

/-- A sample blend contribution: constant prediction 5, constant mask
weight 1, over `sampleRegion8`. -/
def sampleBlend1 : BlendInput :=
  { reg := sampleRegion8, noise_pred := fun _ _ => 5, mask_w := fun _ _ => 1 }

/-- A sample blend contribution: constant prediction 9, constant mask
weight 3, over `sampleRegion8`. -/
def sampleBlend3 : BlendInput :=
  { reg := sampleRegion8, noise_pred := fun _ _ => 9, mask_w := fun _ _ => 3 }

/-! ## Claim theorems -/

/-- C1 (counterexample): the claim says a `CanvasRegion` whose pixel
rectangle is inverted (`row_end <= row_init` and `col_end <= col_init`)
fails construction with an invalid-argument error; but
`CanvasRegion.__post_init__` performs no validation, so the inverted
rectangle `(row_init, row_end, col_init, col_end) = (10, 5, 10, 5)`
constructs successfully. -/
theorem canvasRegion_inverted_constructs :
    (5 : ℤ) ≤ 10 ∧
      exceptIsOk (canvasRegionPostInit 10 5 10 5) = true := by
  exact ⟨by decide, rfl⟩

/-- C1 (amended): `CanvasRegion` construction never validates the pixel
bounds: for every rectangle, including empty and inverted ones,
`__post_init__` succeeds and only computes the latent bounds by floor
division by 8. -/
theorem canvasRegionPostInit_total (ri re ci ce : ℤ) :
    canvasRegionPostInit ri re ci ce =
      Except.ok
        { row_init := ri, row_end := re, col_init := ci, col_end := ce,
          latent_row_init := Int.fdiv ri 8, latent_row_end := Int.fdiv re 8,
          latent_col_init := Int.fdiv ci 8, latent_col_end := Int.fdiv ce 8 } := rfl

/-- C9: `compute_mask_weights` dispatches through a dict keyed by the enum
members' raw string values, so the lookup succeeds exactly when the
runtime `mask_type` value is one of the strings `"constant"`,
`"gaussian"`, `"quartic"`, and fails with a `KeyError` for every actual
`MaskModes` enum member. -/
theorem computeMaskWeightsDispatch_string_keyed :
    (∀ k : MaskTypeValue,
       exceptIsOk (computeMaskWeightsDispatch k) = true ↔
         (k = MaskTypeValue.str "constant" ∨ k = MaskTypeValue.str "gaussian" ∨
           k = MaskTypeValue.str "quartic")) ∧
    (∀ m : MaskModes,
       computeMaskWeightsDispatch (MaskTypeValue.enumMember m) =
         Except.error "KeyError") := by
  constructor
  · intro k
    cases k with
    | enumMember m =>
      simp only [computeMaskWeightsDispatch, MASK_BUILDERS, maskTypeEqStr]
      simp [exceptIsOk, List.find?]
    | str s =>
      by_cases h1 : s = "constant"
      · subst h1; simp [computeMaskWeightsDispatch, MASK_BUILDERS,
          maskTypeEqStr, List.find?, exceptIsOk, MaskModes.value]
      · by_cases h2 : s = "gaussian"
        · subst h2; simp [computeMaskWeightsDispatch, MASK_BUILDERS,
            maskTypeEqStr, List.find?, exceptIsOk, MaskModes.value]
        · by_cases h3 : s = "quartic"
          · subst h3; simp [computeMaskWeightsDispatch, MASK_BUILDERS,
              maskTypeEqStr, List.find?, exceptIsOk, MaskModes.value]
          · have e1 : (s == "constant") = false := by simp [h1]
            have e2 : (s == "gaussian") = false := by simp [h2]
            have e3 : (s == "quartic") = false := by simp [h3]
            simp [computeMaskWeightsDispatch, MASK_BUILDERS, maskTypeEqStr,
              List.find?, exceptIsOk, MaskModes.value, e1, e2, e3, h1, h2, h3]
  · intro m
    cases m <;> rfl

/-- C6: `Image2ImageRegion.__post_init__` fails exactly when the reference
image is missing or the strength lies outside `[0, 1]`; on success the
stored reference image is the supplied image resized to the region's
pixel height and width. -/
theorem image2ImageRegionPostInit_spec {Img : Type} (resize : Img → ℤ → ℤ → Img)
    (ri re ci ce : ℤ) (refImg : Option Img) (strength : ℚ) :
    (exceptIsOk (image2ImageRegionPostInit resize ri re ci ce refImg strength) = false ↔
       (refImg = none ∨ strength < 0 ∨ 1 < strength)) ∧
    (∀ img : Img, refImg = some img → 0 ≤ strength → strength ≤ 1 →
       image2ImageRegionPostInit resize ri re ci ce refImg strength =
         Except.ok
           { region :=
               { row_init := ri, row_end := re, col_init := ci, col_end := ce,
                 latent_row_init := Int.fdiv ri 8, latent_row_end := Int.fdiv re 8,
                 latent_col_init := Int.fdiv ci 8, latent_col_end := Int.fdiv ce 8 },
             reference_image := resize img (re - ri) (ce - ci),
             strength := strength }) := by
  constructor
  · cases refImg with
    | none => simp [image2ImageRegionPostInit, canvasRegionPostInit, exceptIsOk]
    | some img =>
      by_cases h : strength < 0 ∨ strength > 1
      · simp [image2ImageRegionPostInit, canvasRegionPostInit, exceptIsOk, h]
      · simp [image2ImageRegionPostInit, canvasRegionPostInit, exceptIsOk, h]
  · intro img hsome h0 h1
    subst hsome
    have hnot : ¬ (strength < 0 ∨ strength > 1) := by
      push_neg
      exact ⟨h0, h1⟩
    simp [image2ImageRegionPostInit, canvasRegionPostInit, hnot,
      CanvasRegion.height, CanvasRegion.width]

/-- C6 (witness): a concrete successful construction with strength 1/2
and image type `ℤ`, and a concrete failing condition check. -/
theorem image2ImageRegionPostInit_spec_witness :
    image2ImageRegionPostInit (fun (i : ℤ) _ _ => i) 0 8 0 8 (some 7) (1/2) =
      Except.ok
        { region :=
            { row_init := 0, row_end := 8, col_init := 0, col_end := 8,
              latent_row_init := Int.fdiv 0 8, latent_row_end := Int.fdiv 8 8,
              latent_col_init := Int.fdiv 0 8, latent_col_end := Int.fdiv 8 8 },
          reference_image := (fun (i : ℤ) _ _ => i) 7 (8 - 0) (8 - 0),
          strength := 1/2 } :=
  (image2ImageRegionPostInit_spec (fun (i : ℤ) _ _ => i) 0 8 0 8 (some 7) (1/2)).2
    7 rfl (by norm_num) (by norm_num)

/-- C7: `Text2ImageRegion.encode_prompt` fails with the tokenize-first
precondition violation when the prompt is not yet tokenized (producing no
updated region, so `encoded_prompt` stays unset), and after
`tokenize_prompt` it succeeds and stores the text encoder's output on the
tokenized prompt. -/
theorem encodePrompt_two_phase {Tok Enc : Type} (tokenizer : String → Tok)
    (text_encoder : Tok → Enc) (r : Text2ImageRegion Tok Enc) :
    (r.tokenized_prompt = none →
       encodePrompt text_encoder r =
         Except.error "Prompt in diffusion region must be tokenized before encoding") ∧
    (∀ tp : Tok, r.tokenized_prompt = some tp →
       encodePrompt text_encoder r =
         Except.ok { r with encoded_prompt := some (text_encoder tp) }) ∧
    encodePrompt text_encoder (tokenizePrompt tokenizer r) =
      Except.ok
        { r with tokenized_prompt := some (tokenizer r.prompt),
                 encoded_prompt := some (text_encoder (tokenizer r.prompt)) } := by
  refine ⟨fun hnone => ?_, fun tp htp => ?_, ?_⟩
  · simp [encodePrompt, hnone]
  · simp [encodePrompt, htp]
  · rfl

/-- C7 (witness): with the length tokenizer and identity encoder over `ℕ`,
encoding before tokenizing fails on a fresh region, and encoding after
tokenizing succeeds. -/
theorem encodePrompt_two_phase_witness :
    (encodePrompt (fun n : ℕ => n)
        { prompt := "ab", guidance_scale := 15/2, tokenized_prompt := none,
          encoded_prompt := (none : Option ℕ) } =
        Except.error "Prompt in diffusion region must be tokenized before encoding") ∧
    (encodePrompt (fun n : ℕ => n)
        (tokenizePrompt String.length
          { prompt := "ab", guidance_scale := 15/2, tokenized_prompt := none,
            encoded_prompt := (none : Option ℕ) }) =
        Except.ok
          { prompt := "ab", guidance_scale := 15/2, tokenized_prompt := some 2,
            encoded_prompt := some 2 }) := by
  constructor
  · exact (encodePrompt_two_phase String.length (fun n : ℕ => n)
      { prompt := "ab", guidance_scale := 15/2, tokenized_prompt := none,
        encoded_prompt := (none : Option ℕ) }).1 rfl
  · exact (encodePrompt_two_phase String.length (fun n : ℕ => n)
      { prompt := "ab", guidance_scale := 15/2, tokenized_prompt := none,
        encoded_prompt := (none : Option ℕ) }).2.2

/-- C4: reference-image injection at timestep index `i` happens iff
`i < min(floor(strength * num_inference_steps) + offset,
num_inference_steps)`; with `strength = 1/2`, `num_inference_steps = 10`,
`offset = 0` that is exactly `i < 5`; when injection happens, the values
written inside the region are the scheduler's forward-noising of the
region's reference latents with the `init_noise` slice at the region's
coordinates, and otherwise (past the cutoff, or outside the region) the
latents are untouched. -/
theorem img2imgInject_spec :
    (∀ (num_inference_steps offset i : ℕ) (strength : ℚ), 0 ≤ strength →
       ((i : ℤ) < influenceStep num_inference_steps strength offset ↔
         (i : ℤ) < min (⌊strength * (num_inference_steps : ℚ)⌋ + (offset : ℤ))
           (num_inference_steps : ℤ))) ∧
    (∀ i : ℕ, ((i : ℤ) < influenceStep 10 (1/2) 0 ↔ i < 5)) ∧
    (∀ (add_noise : ℚ → ℚ → ℤ → ℚ) (ref init lat : ℤ → ℤ → ℚ)
       (reg : CanvasRegion) (strength : ℚ) (steps offset i : ℕ) (t r c : ℤ),
       (i : ℤ) < influenceStep steps strength offset →
       coversLatent reg r c →
       img2imgInject add_noise ref init lat reg strength steps offset i t r c =
         add_noise (ref (r - reg.latent_row_init) (c - reg.latent_col_init))
           (init r c) t) ∧
    (∀ (add_noise : ℚ → ℚ → ℤ → ℚ) (ref init lat : ℤ → ℤ → ℚ)
       (reg : CanvasRegion) (strength : ℚ) (steps offset i : ℕ) (t r c : ℤ),
       ¬ (i : ℤ) < influenceStep steps strength offset →
       img2imgInject add_noise ref init lat reg strength steps offset i t r c =
         lat r c) ∧
    (∀ (add_noise : ℚ → ℚ → ℤ → ℚ) (ref init lat : ℤ → ℤ → ℚ)
       (reg : CanvasRegion) (strength : ℚ) (steps offset i : ℕ) (t r c : ℤ),
       ¬ coversLatent reg r c →
       img2imgInject add_noise ref init lat reg strength steps offset i t r c =
         lat r c) := by
  have hflo : ∀ (steps : ℕ) (strength : ℚ), 0 ≤ strength →
      pyInt ((steps : ℚ) * strength) = ⌊strength * (steps : ℚ)⌋ := by
    intro steps strength h
    have hq : 0 ≤ (steps : ℚ) * strength := mul_nonneg (by positivity) h
    unfold pyInt
    rw [if_pos hq, mul_comm]
  refine ⟨?_, ?_, ?_, ?_, ?_⟩
  · intro steps offset i strength h
    unfold influenceStep
    rw [hflo steps strength h]
  · have harg : ((10 : ℕ) : ℚ) * (1/2 : ℚ) = ((5 : ℤ) : ℚ) := by norm_num
    have h5 : influenceStep 10 (1/2) 0 = 5 := by
      unfold influenceStep pyInt
      rw [harg, if_pos (by norm_num : (0 : ℚ) ≤ ((5 : ℤ) : ℚ)), Int.floor_intCast]
      norm_num
    intro i
    rw [h5]
    omega
  · intro add_noise ref init lat reg strength steps offset i t r c hstep hcov
    unfold img2imgInject
    rw [if_pos hstep]
    unfold sliceAssign
    rw [if_pos hcov]
    have h1 : reg.latent_row_init + (r - reg.latent_row_init) = r := by ring
    have h2 : reg.latent_col_init + (c - reg.latent_col_init) = c := by ring
    simp only [h1, h2]
  · intro add_noise ref init lat reg strength steps offset i t r c hstep
    unfold img2imgInject
    rw [if_neg hstep]
  · intro add_noise ref init lat reg strength steps offset i t r c hcov
    unfold img2imgInject
    split
    · unfold sliceAssign
      rw [if_neg hcov]
    · rfl

/-- C4 (witness): with 10 steps, strength 1/2 and offset 0, step 3 is
before the cutoff and step 7 after it; the injected value at `(0, 0)` for
a concrete scheduler model is as the theorem states; step 9 leaves the
latents untouched. -/
theorem img2imgInject_spec_witness :
    (0 ≤ (1/2 : ℚ)) ∧
    (((3 : ℕ) : ℤ) < influenceStep 10 (1/2) 0 ↔
      ((3 : ℕ) : ℤ) < min (⌊(1/2 : ℚ) * ((10 : ℕ) : ℚ)⌋ + ((0 : ℕ) : ℤ)) ((10 : ℕ) : ℤ)) ∧
    (((7 : ℕ) : ℤ) < influenceStep 10 (1/2) 0 ↔ (7 : ℕ) < 5) ∧
    (((0 : ℕ) : ℤ) < influenceStep 10 (1/2) 0 ∧ coversLatent sampleRegion8 0 0 ∧
      img2imgInject (fun a b t => a + b + (t : ℚ)) (fun _ _ => 1) (fun _ _ => 2)
          (fun _ _ => 3) sampleRegion8 (1/2) 10 0 0 11 0 0 =
        (fun a b t => a + b + (t : ℚ))
          ((fun (_ _ : ℤ) => (1 : ℚ)) (0 - sampleRegion8.latent_row_init)
            (0 - sampleRegion8.latent_col_init))
          ((fun (_ _ : ℤ) => (2 : ℚ)) 0 0) 11) ∧
    (¬ ((9 : ℕ) : ℤ) < influenceStep 10 (1/2) 0 ∧
      img2imgInject (fun a b t => a + b + (t : ℚ)) (fun _ _ => 1) (fun _ _ => 2)
          (fun _ _ => 3) sampleRegion8 (1/2) 10 0 9 11 0 0 =
        (fun (_ _ : ℤ) => (3 : ℚ)) 0 0) := by
  have h0in : ((0 : ℕ) : ℤ) < influenceStep 10 (1/2) 0 :=
    (img2imgInject_spec.2.1 0).mpr (by decide)
  have h9out : ¬ ((9 : ℕ) : ℤ) < influenceStep 10 (1/2) 0 :=
    fun h => absurd ((img2imgInject_spec.2.1 9).mp h) (by decide)
  refine ⟨by norm_num, img2imgInject_spec.1 10 0 3 (1/2) (by norm_num),
    img2imgInject_spec.2.1 7, ⟨h0in, by decide, ?_⟩, ⟨h9out, ?_⟩⟩
  · exact img2imgInject_spec.2.2.1 (fun a b t => a + b + (t : ℚ)) (fun _ _ => 1)
      (fun _ _ => 2) (fun _ _ => 3) sampleRegion8 (1/2) 10 0 0 11 0 0
      h0in (by decide)
  · exact img2imgInject_spec.2.2.2.1 (fun a b t => a + b + (t : ℚ)) (fun _ _ => 1)
      (fun _ _ => 2) (fun _ _ => 3) sampleRegion8 (1/2) 10 0 9 11 0 0 h9out

/-- `List.find?` over a list with one element appended: the appended
element is only found when nothing before it matches. -/
theorem find?_append_singleton {α : Type} (f : α → Bool) (l : List α) (x : α) :
    ((l ++ [x]).find? f) =
      (match l.find? f with
       | some y => some y
       | none => if f x then some x else none) := by
  induction l with
  | nil =>
    cases hfx : f x <;> simp [List.find?, hfx]
  | cons a t ih =>
    cases hfa : f a <;> simp [List.find?, hfa, ih]

/-- The reroll fold, characterized pointwise: a position holds the draw of
the last override covering it, or the base value when no override covers
it. -/
theorem applyRerolls_eq_find (randn : ℕ → ℤ → ℤ → ℚ)
    (l : List (CanvasRegion × ℕ)) (base : ℤ → ℤ → ℚ) (r c : ℤ) :
    applyRerolls randn base l r c =
      (match l.reverse.find? (fun p => decide (coversLatent p.1 r c)) with
       | some p => randn p.2 (r - p.1.latent_row_init) (c - p.1.latent_col_init)
       | none => base r c) := by
  induction l generalizing base with
  | nil => rfl
  | cons p t ih =>
    have hstep : applyRerolls randn base (p :: t) =
        applyRerolls randn (sliceAssign base p.1 (randn p.2)) t := rfl
    rw [hstep, ih, List.reverse_cons, find?_append_singleton]
    cases hfind : t.reverse.find? (fun q => decide (coversLatent q.1 r c)) with
    | some q => simp
    | none =>
      by_cases hc : coversLatent p.1 r c
      · simp [hc, sliceAssign]
      · simp [hc, sliceAssign]

/-- C5 (counterexample): the claim says that after the overrides, the
latents inside each override's rectangle equal that override's own fresh
draw; with two overrides naming the same region and different seeds the
first override's rectangle holds the second draw, not its own. -/
theorem seedLatents_reroll_not_own_draw :
    (sampleRegion8, 1) ∈ overlapOverrides ∧ coversLatent sampleRegion8 0 0 ∧
      (seedLatents constRandn 0 overlapOverrides).latents 0 0 ≠
        constRandn 1 (0 - sampleRegion8.latent_row_init)
          (0 - sampleRegion8.latent_col_init) := by
  exact ⟨by decide, by decide, by decide⟩

/-- C5 (amended): after the overrides, each position inside override
rectangles holds the draw of the *last* override covering it (so each
override's rectangle holds its own draw wherever no later override also
covers the position); positions outside every override rectangle keep
their `init_noise` value; and `init_noise` is everywhere exactly the draw
from the main seed. -/
theorem seedLatents_spec (randn : ℕ → ℤ → ℤ → ℚ) (seed : ℕ)
    (l : List (CanvasRegion × ℕ)) (r c : ℤ) :
    (seedLatents randn seed l).init_noise r c = randn seed r c ∧
    ((seedLatents randn seed l).latents r c =
      (match l.reverse.find? (fun p => decide (coversLatent p.1 r c)) with
       | some p => randn p.2 (r - p.1.latent_row_init) (c - p.1.latent_col_init)
       | none => randn seed r c)) ∧
    ((∀ p ∈ l, ¬ coversLatent p.1 r c) →
      (seedLatents randn seed l).latents r c = randn seed r c) := by
  refine ⟨rfl, applyRerolls_eq_find randn l (randn seed) r c, fun h => ?_⟩
  have hnone : l.reverse.find? (fun p => decide (coversLatent p.1 r c)) = none := by
    rw [List.find?_eq_none]
    intro p hp
    simpa using h p (List.mem_reverse.mp hp)
  rw [show (seedLatents randn seed l).latents r c =
      applyRerolls randn (randn seed) l r c from rfl,
    applyRerolls_eq_find randn l (randn seed) r c, hnone]

/-- C5 (witness): the amended theorem at the concrete overlapping
overrides: `init_noise` equals the main draw, the covered cell `(0,0)`
holds the last override's draw, and the uncovered cell `(5, 5)` keeps the
main draw. -/
theorem seedLatents_spec_witness :
    ((seedLatents constRandn 0 overlapOverrides).init_noise 0 0 = constRandn 0 0 0) ∧
    ((seedLatents constRandn 0 overlapOverrides).latents 0 0 =
      (match overlapOverrides.reverse.find?
          (fun p => decide (coversLatent p.1 0 0)) with
       | some p => constRandn p.2 (0 - p.1.latent_row_init) (0 - p.1.latent_col_init)
       | none => constRandn 0 0 0)) ∧
    ((∀ p ∈ overlapOverrides, ¬ coversLatent p.1 5 5) ∧
      (seedLatents constRandn 0 overlapOverrides).latents 5 5 = constRandn 0 5 5) := by
  refine ⟨(seedLatents_spec constRandn 0 overlapOverrides 0 0).1,
    (seedLatents_spec constRandn 0 overlapOverrides 0 0).2.1,
    by decide, (seedLatents_spec constRandn 0 overlapOverrides 5 5).2.2 (by decide)⟩

/-- Summing a list of guarded terms equals summing the guarded sublist. -/
theorem sum_map_ite_eq_filter {α : Type} (p : α → Prop) [DecidablePred p]
    (f : α → ℚ) (l : List α) :
    (l.map (fun b => if p b then f b else 0)).sum =
      ((l.filter (fun b => decide (p b))).map f).sum := by
  induction l with
  | nil => rfl
  | cons a t ih =>
    by_cases hc : p a
    · simp [List.filter_cons, hc, ih]
    · simp [List.filter_cons, hc, ih]

/-- The accumulated contributor weights are nonnegative when every
covering region has nonnegative weight at the position. -/
theorem accumContributors_nonneg (l : List BlendInput) (r c : ℤ)
    (h : ∀ b ∈ l, coversLatent b.reg r c → 0 ≤ regionWeightAt b r c) :
    0 ≤ accumContributors l r c := by
  unfold accumContributors
  apply List.sum_nonneg
  intro x hx
  rcases List.mem_map.mp hx with ⟨b, hb, rfl⟩
  by_cases hc : coversLatent b.reg r c
  · rw [if_pos hc]
    exact h b hb hc
  · rw [if_neg hc]

/-- The accumulated contributor weights are strictly positive at a
position covered by at least one region whose covering weights are
positive. -/
theorem accumContributors_pos (l : List BlendInput) (r c : ℤ)
    (hpos : ∀ b ∈ l, coversLatent b.reg r c → 0 < regionWeightAt b r c)
    (hcov : ∃ b ∈ l, coversLatent b.reg r c) :
    0 < accumContributors l r c := by
  induction l with
  | nil =>
    rcases hcov with ⟨b, hb, _⟩
    cases hb
  | cons b t ih =>
    have hsum : accumContributors (b :: t) r c =
        (if coversLatent b.reg r c then regionWeightAt b r c else 0) +
          accumContributors t r c := by
      simp [accumContributors]
    rw [hsum]
    by_cases hc : coversLatent b.reg r c
    · rw [if_pos hc]
      have hw := hpos b (List.mem_cons_self b t) hc
      have ht : 0 ≤ accumContributors t r c :=
        accumContributors_nonneg t r c
          (fun b2 hb2 hc2 => le_of_lt (hpos b2 (List.mem_cons_of_mem b hb2) hc2))
      linarith
    · rw [if_neg hc]
      rcases hcov with ⟨b2, hb2, hc2⟩
      rcases List.mem_cons.mp hb2 with h1 | h2
      · exact absurd hc2 (h1 ▸ hc)
      · have := ih (fun b3 hb3 hc3 => hpos b3 (List.mem_cons_of_mem b hb3) hc3)
          ⟨b2, h2, hc2⟩
        linarith

/-- C2: at a position covered by at least one text-driven region (all
covering mask weights positive), the blended prediction is the additive
weighted average: the sum over covering regions of prediction times mask
weight, divided by the sum of those mask weights; a position covered by
exactly one region yields that region's prediction unchanged; the overlap
of two constant-mask regions with weights 1 and 3 yields
`(1*pred_A + 3*pred_B) / 4`. -/
theorem blendedNoisePred_weighted_average :
    (∀ (l : List BlendInput) (r c : ℤ),
       (∃ b ∈ l, coversLatent b.reg r c) →
       (∀ b ∈ l, coversLatent b.reg r c → 0 < regionWeightAt b r c) →
       blendedNoisePred l r c =
         ((l.filter (fun b => decide (coversLatent b.reg r c))).map
            (fun b => regionPredAt b r c * regionWeightAt b r c)).sum /
          ((l.filter (fun b => decide (coversLatent b.reg r c))).map
            (fun b => regionWeightAt b r c)).sum) ∧
    (∀ (b : BlendInput) (r c : ℤ), coversLatent b.reg r c →
       0 < regionWeightAt b r c →
       blendedNoisePred [b] r c = regionPredAt b r c) ∧
    (∀ (b1 b2 : BlendInput) (r c : ℤ), coversLatent b1.reg r c →
       coversLatent b2.reg r c → (∀ dr dc, b1.mask_w dr dc = 1) →
       (∀ dr dc, b2.mask_w dr dc = 3) →
       blendedNoisePred [b1, b2] r c =
         (1 * regionPredAt b1 r c + 3 * regionPredAt b2 r c) / 4) := by
  refine ⟨?_, ?_, ?_⟩
  · intro l r c hcov hpos
    have hposc := accumContributors_pos l r c hpos hcov
    unfold blendedNoisePred nanToNumDiv
    rw [if_neg (ne_of_gt hposc)]
    have h1 : accumNoisePred l r c =
        ((l.filter (fun b => decide (coversLatent b.reg r c))).map
          (fun b => regionPredAt b r c * regionWeightAt b r c)).sum := by
      unfold accumNoisePred
      exact sum_map_ite_eq_filter (fun b => coversLatent b.reg r c)
        (fun b => regionPredAt b r c * regionWeightAt b r c) l
    have h2 : accumContributors l r c =
        ((l.filter (fun b => decide (coversLatent b.reg r c))).map
          (fun b => regionWeightAt b r c)).sum := by
      unfold accumContributors
      exact sum_map_ite_eq_filter (fun b => coversLatent b.reg r c)
        (fun b => regionWeightAt b r c) l
    rw [h1, h2]
  · intro b r c hc hw
    have hacc : accumNoisePred [b] r c = regionPredAt b r c * regionWeightAt b r c := by
      simp [accumNoisePred, hc]
    have hctr : accumContributors [b] r c = regionWeightAt b r c := by
      simp [accumContributors, hc]
    unfold blendedNoisePred nanToNumDiv
    rw [hacc, hctr, if_neg (ne_of_gt hw)]
    exact mul_div_cancel_right₀ (regionPredAt b r c) (ne_of_gt hw)
  · intro b1 b2 r c hc1 hc2 hw1 hw3
    have e1 : regionWeightAt b1 r c = 1 := hw1 _ _
    have e2 : regionWeightAt b2 r c = 3 := hw3 _ _
    have hacc : accumNoisePred [b1, b2] r c =
        regionPredAt b1 r c * 1 + regionPredAt b2 r c * 3 := by
      simp [accumNoisePred, hc1, hc2, e1, e2]
    have hctr : accumContributors [b1, b2] r c = 4 := by
      simp [accumContributors, hc1, hc2, e1, e2]
      norm_num
    unfold blendedNoisePred nanToNumDiv
    rw [hacc, hctr, if_neg (by norm_num : (4 : ℚ) ≠ 0)]
    ring

/-- C2 (witness): the concrete constant-mask regions with predictions 5
and 9 and weights 1 and 3 over the same cell: the general formula, the
single-region identity, and the `(1*5 + 3*9)/4` overlap instance. -/
theorem blendedNoisePred_weighted_average_witness :
    ((∃ b ∈ [sampleBlend1, sampleBlend3], coversLatent b.reg 0 0) ∧
      (∀ b ∈ [sampleBlend1, sampleBlend3], coversLatent b.reg 0 0 →
        0 < regionWeightAt b 0 0) ∧
      blendedNoisePred [sampleBlend1, sampleBlend3] 0 0 =
        (([sampleBlend1, sampleBlend3].filter
            (fun b => decide (coversLatent b.reg 0 0))).map
          (fun b => regionPredAt b 0 0 * regionWeightAt b 0 0)).sum /
         (([sampleBlend1, sampleBlend3].filter
            (fun b => decide (coversLatent b.reg 0 0))).map
          (fun b => regionWeightAt b 0 0)).sum) ∧
    blendedNoisePred [sampleBlend1] 0 0 = regionPredAt sampleBlend1 0 0 ∧
    blendedNoisePred [sampleBlend1, sampleBlend3] 0 0 =
      (1 * regionPredAt sampleBlend1 0 0 + 3 * regionPredAt sampleBlend3 0 0) / 4 := by
  refine ⟨⟨by decide, by decide, ?_⟩, ?_, ?_⟩
  · exact blendedNoisePred_weighted_average.1 [sampleBlend1, sampleBlend3] 0 0
      (by decide) (by decide)
  · exact blendedNoisePred_weighted_average.2.1 sampleBlend1 0 0 (by decide) (by decide)
  · exact blendedNoisePred_weighted_average.2.2 sampleBlend1 sampleBlend3 0 0
      (by decide) (by decide) (fun _ _ => rfl) (fun _ _ => rfl)

/-- C3: at a position covered by zero text-driven regions both
accumulators are zero, and the `0/0` entry is replaced by exactly zero by
`nan_to_num` — the blended prediction passed to the scheduler step is `0`,
not `NaN` and not an error. -/
theorem blendedNoisePred_uncovered_zero (l : List BlendInput) (r c : ℤ)
    (h : ∀ b ∈ l, ¬ coversLatent b.reg r c) :
    blendedNoisePred l r c = 0 := by
  have h1 : accumNoisePred l r c = 0 := by
    unfold accumNoisePred
    apply List.sum_eq_zero
    intro x hx
    rcases List.mem_map.mp hx with ⟨b, hb, rfl⟩
    rw [if_neg (h b hb)]
  have h2 : accumContributors l r c = 0 := by
    unfold accumContributors
    apply List.sum_eq_zero
    intro x hx
    rcases List.mem_map.mp hx with ⟨b, hb, rfl⟩
    rw [if_neg (h b hb)]
  unfold blendedNoisePred nanToNumDiv
  rw [h1, h2]
  simp

/-- C3 (witness): position `(5, 7)` lies outside the sample region, and
the blended prediction there is exactly zero. -/
theorem blendedNoisePred_uncovered_zero_witness :
    (∀ b ∈ [sampleBlend1], ¬ coversLatent b.reg 5 7) ∧
      blendedNoisePred [sampleBlend1] 5 7 = 0 :=
  ⟨by decide, blendedNoisePred_uncovered_zero [sampleBlend1] 5 7 (by decide)⟩

/-- The gaussian 1-D profile is everywhere strictly positive. -/
theorem gaussianProb_pos (extent k : ℤ) : 0 < gaussianProb extent k := by
  unfold gaussianProb
  apply div_pos (Real.exp_pos _)
  apply Real.sqrt_pos.mpr
  positivity

/-- The gaussian 1-D profile is symmetric about the axis midpoint
`(extent - 1) / 2`. -/
theorem gaussianProb_symm (extent k : ℤ) :
    gaussianProb extent (extent - 1 - k) = gaussianProb extent k := by
  unfold gaussianProb
  congr 2
  push_cast
  ring

/-- The gaussian 1-D profile strictly decreases as the (doubled) distance
to the axis midpoint grows. -/
theorem gaussianProb_strict_anti (extent x1 x2 : ℤ) (hE : extent ≠ 0)
    (hd : |2 * x1 - (extent - 1)| < |2 * x2 - (extent - 1)|) :
    gaussianProb extent x2 < gaussianProb extent x1 := by
  have ha : (2 * x1 - (extent - 1)) * (2 * x1 - (extent - 1)) <
      (2 * x2 - (extent - 1)) * (2 * x2 - (extent - 1)) := by
    have h := mul_self_lt_mul_self (abs_nonneg (2 * x1 - (extent - 1))) hd
    rwa [abs_mul_abs_self, abs_mul_abs_self] at h
  have haR : (((2 * x1 - (extent - 1)) : ℤ) : ℝ) * (((2 * x1 - (extent - 1)) : ℤ) : ℝ) <
      (((2 * x2 - (extent - 1)) : ℤ) : ℝ) * (((2 * x2 - (extent - 1)) : ℤ) : ℝ) := by
    exact_mod_cast ha
  have hE' : ((extent : ℝ)) ≠ 0 := Int.cast_ne_zero.mpr hE
  have hEE : (0 : ℝ) < (extent : ℝ) * (extent : ℝ) := mul_self_pos.mpr hE'
  have hq : ((x1 : ℝ) - ((extent : ℝ) - 1) / 2) * ((x1 : ℝ) - ((extent : ℝ) - 1) / 2) <
      ((x2 : ℝ) - ((extent : ℝ) - 1) / 2) * ((x2 : ℝ) - ((extent : ℝ) - 1) / 2) := by
    push_cast at haR
    nlinarith [haR]
  unfold gaussianProb
  have hs : 0 < Real.sqrt (2 * Real.pi * (1 / 100)) :=
    Real.sqrt_pos.mpr (by positivity)
  apply (div_lt_div_right hs).mpr
  apply Real.exp_lt_exp.mpr
  rw [div_div, div_div, neg_div, neg_div]
  apply neg_lt_neg
  apply (div_lt_div_right (by positivity : (0 : ℝ) < (extent : ℝ) * (extent : ℝ) * (2 * (1 / 100)))).mpr
  exact hq

/-- The quartic support divisor is nonzero for latent extent at least 2. -/
theorem quarticDenominator_ne (extent : ℤ) (h : 2 ≤ extent) :
    quarticDenominator extent ≠ 0 := by
  unfold quarticDenominator
  have h2 : (2 : ℚ) ≤ (extent : ℚ) := by exact_mod_cast h
  intro h0
  linarith

/-- The quartic support coordinate is antisymmetric about the axis
midpoint. -/
theorem quarticSupport_symm (extent k : ℤ) (h : 2 ≤ extent) :
    quarticSupport extent (extent - 1 - k) = -quarticSupport extent k := by
  have hne : ((extent : ℚ) - 1) ≠ 0 := by
    have h2 : (2 : ℚ) ≤ (extent : ℚ) := by exact_mod_cast h
    intro h0
    linarith
  unfold quarticSupport quarticDenominator
  push_cast
  field_simp
  ring

/-- The quartic 1-D profile is symmetric about the axis midpoint. -/
theorem quarticProb_symm (extent k : ℤ) (h : 2 ≤ extent) :
    quarticProb extent (extent - 1 - k) = quarticProb extent k := by
  unfold quarticProb npSquare
  rw [quarticSupport_symm extent k h]
  ring

/-- The quartic support coordinate of an in-range index lies in
`[-0.995, 0.995]` (in particular it never reaches `±1`, the zeros of the
biweight kernel). -/
theorem quarticSupport_bounds (extent k : ℤ) (hE : 2 ≤ extent)
    (h0 : 0 ≤ k) (h1 : k ≤ extent - 1) :
    -(199/200 : ℚ) ≤ quarticSupport extent k ∧ quarticSupport extent k ≤ 199/200 := by
  have hden : (0 : ℚ) < (extent : ℚ) - 1 := by
    have h2 : (2 : ℚ) ≤ (extent : ℚ) := by exact_mod_cast hE
    linarith
  have hk0 : (0 : ℚ) ≤ (k : ℚ) := by exact_mod_cast h0
  have hk1 : (k : ℚ) ≤ (extent : ℚ) - 1 := by
    have h1Q : ((k : ℤ) : ℚ) ≤ ((extent - 1 : ℤ) : ℚ) := by exact_mod_cast h1
    push_cast at h1Q
    linarith
  have hratio0 : 0 ≤ (k : ℚ) / ((extent : ℚ) - 1) := div_nonneg hk0 (le_of_lt hden)
  have hratio1 : (k : ℚ) / ((extent : ℚ) - 1) ≤ 1 := (div_le_one hden).mpr hk1
  unfold quarticSupport quarticDenominator
  constructor <;> linarith

/-- The quartic 1-D profile is strictly positive at in-range indices. -/
theorem quarticProb_pos (extent k : ℤ) (hE : 2 ≤ extent)
    (h0 : 0 ≤ k) (h1 : k ≤ extent - 1) :
    0 < quarticProb extent k := by
  obtain ⟨hl, hr⟩ := quarticSupport_bounds extent k hE h0 h1
  have hs1 : quarticSupport extent k * quarticSupport extent k < 1 := by
    nlinarith [mul_nonneg (by linarith : (0 : ℚ) ≤ 199/200 - quarticSupport extent k)
      (by linarith : (0 : ℚ) ≤ quarticSupport extent k + 199/200)]
  have h2 : 0 < 1 - quarticSupport extent k * quarticSupport extent k := by linarith
  unfold quarticProb quarticConstant npSquare
  exact mul_pos (by norm_num) (mul_pos h2 h2)

/-- The squared quartic support coordinate expressed over the doubled
distance to the axis midpoint. -/
theorem quarticSupport_sq (extent k : ℤ) (h : 2 ≤ extent) :
    quarticSupport extent k * quarticSupport extent k =
      (199/200 : ℚ)^2 * (((2 * k - (extent - 1)) : ℤ) : ℚ)^2 /
        ((extent : ℚ) - 1)^2 := by
  have hne : ((extent : ℚ) - 1) ≠ 0 := by
    have h2 : (2 : ℚ) ≤ (extent : ℚ) := by exact_mod_cast h
    intro h0
    linarith
  unfold quarticSupport quarticDenominator
  push_cast
  field_simp
  ring

/-- The quartic 1-D profile strictly decreases as the (doubled) distance
to the axis midpoint grows, over in-range indices. -/
theorem quarticProb_strict_anti (extent x1 x2 : ℤ) (hE : 2 ≤ extent)
    (h10 : 0 ≤ x1) (h11 : x1 ≤ extent - 1) (h20 : 0 ≤ x2) (h21 : x2 ≤ extent - 1)
    (hd : |2 * x1 - (extent - 1)| < |2 * x2 - (extent - 1)|) :
    quarticProb extent x2 < quarticProb extent x1 := by
  have hden : (0 : ℚ) < (extent : ℚ) - 1 := by
    have h2 : (2 : ℚ) ≤ (extent : ℚ) := by exact_mod_cast hE
    linarith
  have ha : (2 * x1 - (extent - 1)) * (2 * x1 - (extent - 1)) <
      (2 * x2 - (extent - 1)) * (2 * x2 - (extent - 1)) := by
    have h := mul_self_lt_mul_self (abs_nonneg (2 * x1 - (extent - 1))) hd
    rwa [abs_mul_abs_self, abs_mul_abs_self] at h
  have haQ : (((2 * x1 - (extent - 1)) : ℤ) : ℚ)^2 <
      (((2 * x2 - (extent - 1)) : ℤ) : ℚ)^2 := by
    have : ((2 * x1 - (extent - 1) : ℤ) : ℚ) * ((2 * x1 - (extent - 1) : ℤ) : ℚ) <
        ((2 * x2 - (extent - 1) : ℤ) : ℚ) * ((2 * x2 - (extent - 1) : ℤ) : ℚ) := by
      exact_mod_cast ha
    nlinarith [this]
  have hs2 : quarticSupport extent x1 * quarticSupport extent x1 <
      quarticSupport extent x2 * quarticSupport extent x2 := by
    rw [quarticSupport_sq extent x1 hE, quarticSupport_sq extent x2 hE]
    apply (div_lt_div_right (by positivity : (0 : ℚ) < ((extent : ℚ) - 1)^2)).mpr
    exact mul_lt_mul_of_pos_left haQ (by norm_num)
  obtain ⟨h2l, h2r⟩ := quarticSupport_bounds extent x2 hE h20 h21
  have hs2small : quarticSupport extent x2 * quarticSupport extent x2 < 1 := by
    nlinarith [mul_nonneg (by linarith : (0 : ℚ) ≤ 199/200 - quarticSupport extent x2)
      (by linarith : (0 : ℚ) ≤ quarticSupport extent x2 + 199/200)]
  have hb : 0 < 1 - quarticSupport extent x2 * quarticSupport extent x2 := by linarith
  have hc : 1 - quarticSupport extent x2 * quarticSupport extent x2 <
      1 - quarticSupport extent x1 * quarticSupport extent x1 := by linarith
  have hsq : (1 - quarticSupport extent x2 * quarticSupport extent x2) *
      (1 - quarticSupport extent x2 * quarticSupport extent x2) <
      (1 - quarticSupport extent x1 * quarticSupport extent x1) *
      (1 - quarticSupport extent x1 * quarticSupport extent x1) := by
    nlinarith [hb, hc]
  unfold quarticProb quarticConstant npSquare
  linarith

/-- C8: the gaussian and quartic mask-weight tensors are symmetric about
the region center in both axes (the weight at index `k` equals the weight
at `extent - 1 - k`, per axis), strictly decrease moving outward from the
center along each axis (weights drop as the doubled distance
`|2k - (extent-1)|` to the axis midpoint grows), and the spatial pattern
is tiled identically across the batch and channel dimensions. Positivity
of `mask_weight` is the data-model invariant on `DiffusionRegion`. -/
theorem masksSymmetricMonotoneTiled :
    (∀ (d : DiffusionRegionData) (b ch : ℕ) (y x : ℤ),
       gaussianWeightVal d b ch (d.region.latentHeight - 1 - y) x =
         gaussianWeightVal d b ch y x) ∧
    (∀ (d : DiffusionRegionData) (b ch : ℕ) (y x : ℤ),
       gaussianWeightVal d b ch y (d.region.latentWidth - 1 - x) =
         gaussianWeightVal d b ch y x) ∧
    (∀ (d : DiffusionRegionData) (b ch : ℕ) (y x1 x2 : ℤ),
       2 ≤ d.region.latentWidth → 0 < d.mask_weight →
       |2 * x1 - (d.region.latentWidth - 1)| < |2 * x2 - (d.region.latentWidth - 1)| →
       gaussianWeightVal d b ch y x2 < gaussianWeightVal d b ch y x1) ∧
    (∀ (d : DiffusionRegionData) (b ch : ℕ) (x y1 y2 : ℤ),
       2 ≤ d.region.latentHeight → 0 < d.mask_weight →
       |2 * y1 - (d.region.latentHeight - 1)| < |2 * y2 - (d.region.latentHeight - 1)| →
       gaussianWeightVal d b ch y2 x < gaussianWeightVal d b ch y1 x) ∧
    (∀ (d : DiffusionRegionData) (b ch : ℕ) (y x : ℤ),
       2 ≤ d.region.latentHeight →
       quarticWeightVal d b ch (d.region.latentHeight - 1 - y) x =
         quarticWeightVal d b ch y x) ∧
    (∀ (d : DiffusionRegionData) (b ch : ℕ) (y x : ℤ),
       2 ≤ d.region.latentWidth →
       quarticWeightVal d b ch y (d.region.latentWidth - 1 - x) =
         quarticWeightVal d b ch y x) ∧
    (∀ (d : DiffusionRegionData) (b ch : ℕ) (y x1 x2 : ℤ),
       2 ≤ d.region.latentHeight → 2 ≤ d.region.latentWidth →
       0 ≤ y → y ≤ d.region.latentHeight - 1 →
       0 ≤ x1 → x1 ≤ d.region.latentWidth - 1 →
       0 ≤ x2 → x2 ≤ d.region.latentWidth - 1 →
       0 < d.mask_weight →
       |2 * x1 - (d.region.latentWidth - 1)| < |2 * x2 - (d.region.latentWidth - 1)| →
       quarticWeightVal d b ch y x2 < quarticWeightVal d b ch y x1) ∧
    (∀ (d : DiffusionRegionData) (b ch : ℕ) (x y1 y2 : ℤ),
       2 ≤ d.region.latentHeight → 2 ≤ d.region.latentWidth →
       0 ≤ x → x ≤ d.region.latentWidth - 1 →
       0 ≤ y1 → y1 ≤ d.region.latentHeight - 1 →
       0 ≤ y2 → y2 ≤ d.region.latentHeight - 1 →
       0 < d.mask_weight →
       |2 * y1 - (d.region.latentHeight - 1)| < |2 * y2 - (d.region.latentHeight - 1)| →
       quarticWeightVal d b ch y2 x < quarticWeightVal d b ch y1 x) ∧
    (∀ (d : DiffusionRegionData) (b ch b2 ch2 : ℕ) (y x : ℤ),
       gaussianWeightVal d b ch y x = gaussianWeightVal d b2 ch2 y x ∧
         quarticWeightVal d b ch y x = quarticWeightVal d b2 ch2 y x) := by
  refine ⟨?_, ?_, ?_, ?_, ?_, ?_, ?_, ?_, ?_⟩
  · intro d b ch y x
    unfold gaussianWeightVal
    rw [gaussianProb_symm d.region.latentHeight y]
  · intro d b ch y x
    unfold gaussianWeightVal
    rw [gaussianProb_symm d.region.latentWidth x]
  · intro d b ch y x1 x2 hW hmw hd
    unfold gaussianWeightVal
    have hanti := gaussianProb_strict_anti d.region.latentWidth x1 x2 (by omega) hd
    have hy := gaussianProb_pos d.region.latentHeight y
    have hmwR : (0 : ℝ) < ((d.mask_weight : ℚ) : ℝ) := by exact_mod_cast hmw
    exact mul_lt_mul_of_pos_right (mul_lt_mul_of_pos_left hanti hy) hmwR
  · intro d b ch x y1 y2 hH hmw hd
    unfold gaussianWeightVal
    have hanti := gaussianProb_strict_anti d.region.latentHeight y1 y2 (by omega) hd
    have hx := gaussianProb_pos d.region.latentWidth x
    have hmwR : (0 : ℝ) < ((d.mask_weight : ℚ) : ℝ) := by exact_mod_cast hmw
    exact mul_lt_mul_of_pos_right (mul_lt_mul_of_pos_right hanti hx) hmwR
  · intro d b ch y x hH
    unfold quarticWeightVal
    rw [quarticProb_symm d.region.latentHeight y hH]
  · intro d b ch y x hW
    unfold quarticWeightVal
    rw [quarticProb_symm d.region.latentWidth x hW]
  · intro d b ch y x1 x2 hH hW hy0 hy1 hx10 hx11 hx20 hx21 hmw hd
    unfold quarticWeightVal
    have hanti := quarticProb_strict_anti d.region.latentWidth x1 x2 hW hx10 hx11
      hx20 hx21 hd
    have hy := quarticProb_pos d.region.latentHeight y hH hy0 hy1
    exact mul_lt_mul_of_pos_right (mul_lt_mul_of_pos_left hanti hy) hmw
  · intro d b ch x y1 y2 hH hW hx0 hx1 hy10 hy11 hy20 hy21 hmw hd
    unfold quarticWeightVal
    have hanti := quarticProb_strict_anti d.region.latentHeight y1 y2 hH hy10 hy11
      hy20 hy21 hd
    have hx := quarticProb_pos d.region.latentWidth x hW hx0 hx1
    exact mul_lt_mul_of_pos_right (mul_lt_mul_of_pos_right hanti hx) hmw
  · intro d b ch b2 ch2 y x
    exact ⟨rfl, rfl⟩

/-- C8 (witness): the concrete region of latent extent 3 with unit mask
weight: moving from the center column (index 1) to the edge column
(index 2) strictly decreases both kernels; reflecting an index about the
center preserves both kernels. -/
theorem masksSymmetricMonotoneTiled_witness :
    (2 ≤ sampleDiff3.region.latentWidth ∧ 2 ≤ sampleDiff3.region.latentHeight ∧
      (0 : ℚ) < sampleDiff3.mask_weight ∧
      |2 * 1 - (sampleDiff3.region.latentWidth - 1)| <
        |2 * 2 - (sampleDiff3.region.latentWidth - 1)|) ∧
    gaussianWeightVal sampleDiff3 0 0 0 2 < gaussianWeightVal sampleDiff3 0 0 0 1 ∧
    gaussianWeightVal sampleDiff3 0 0 2 0 < gaussianWeightVal sampleDiff3 0 0 1 0 ∧
    quarticWeightVal sampleDiff3 0 0 (sampleDiff3.region.latentHeight - 1 - 0) 1 =
      quarticWeightVal sampleDiff3 0 0 0 1 ∧
    quarticWeightVal sampleDiff3 0 0 1 (sampleDiff3.region.latentWidth - 1 - 0) =
      quarticWeightVal sampleDiff3 0 0 1 0 ∧
    quarticWeightVal sampleDiff3 0 0 1 2 < quarticWeightVal sampleDiff3 0 0 1 1 ∧
    quarticWeightVal sampleDiff3 0 0 2 1 < quarticWeightVal sampleDiff3 0 0 1 1 := by
  refine ⟨⟨by decide, by decide, by decide, by decide⟩, ?_, ?_, ?_, ?_, ?_, ?_⟩
  · exact masksSymmetricMonotoneTiled.2.2.1 sampleDiff3 0 0 0 1 2
      (by decide) (by decide) (by decide)
  · exact masksSymmetricMonotoneTiled.2.2.2.1 sampleDiff3 0 0 0 1 2
      (by decide) (by decide) (by decide)
  · exact masksSymmetricMonotoneTiled.2.2.2.2.1 sampleDiff3 0 0 0 1 (by decide)
  · exact masksSymmetricMonotoneTiled.2.2.2.2.2.1 sampleDiff3 0 0 1 0 (by decide)
  · exact masksSymmetricMonotoneTiled.2.2.2.2.2.2.1 sampleDiff3 0 0 1 1 2
      (by decide) (by decide) (by decide) (by decide) (by decide) (by decide)
      (by decide) (by decide) (by decide) (by decide)
  · exact masksSymmetricMonotoneTiled.2.2.2.2.2.2.2.1 sampleDiff3 0 0 1 1 2
      (by decide) (by decide) (by decide) (by decide) (by decide) (by decide)
      (by decide) (by decide) (by decide) (by decide)

/-- C10: with positive `mask_weight` and latent extents at least 2, all
three mask builders produce strictly positive weights everywhere in the
region (the quartic support stays in `[-0.995, 0.995]`, never reaching the
kernel's zeros at `±1`); consequently every canvas position covered by at
least one text-driven region has a strictly positive accumulated
contributor, making the blend division well defined there; and the
quartic divisor `extent - 1` vanishes exactly at latent extent 1, which is
why extent at least 2 is required. -/
theorem maskWeightsPositiveBlendDefined :
    (∀ (d : DiffusionRegionData) (b ch : ℕ) (y x : ℤ),
       0 < d.mask_weight → 0 < constantWeightVal d b ch y x) ∧
    (∀ (d : DiffusionRegionData) (b ch : ℕ) (y x : ℤ),
       0 < d.mask_weight → 0 < gaussianWeightVal d b ch y x) ∧
    (∀ (extent k : ℤ), 2 ≤ extent → 0 ≤ k → k ≤ extent - 1 →
       (-(199/200 : ℚ) ≤ quarticSupport extent k ∧
        quarticSupport extent k ≤ 199/200 ∧
        quarticSupport extent k ≠ 1 ∧ quarticSupport extent k ≠ -1)) ∧
    (∀ (d : DiffusionRegionData) (b ch : ℕ) (y x : ℤ),
       2 ≤ d.region.latentHeight → 2 ≤ d.region.latentWidth →
       0 ≤ y → y ≤ d.region.latentHeight - 1 →
       0 ≤ x → x ≤ d.region.latentWidth - 1 →
       0 < d.mask_weight → 0 < quarticWeightVal d b ch y x) ∧
    (∀ (l : List BlendInput) (r c : ℤ),
       (∀ b ∈ l, coversLatent b.reg r c → 0 < regionWeightAt b r c) →
       (∃ b ∈ l, coversLatent b.reg r c) →
       (0 < accumContributors l r c ∧
        blendedNoisePred l r c = accumNoisePred l r c / accumContributors l r c)) ∧
    (∀ extent : ℤ, quarticDenominator extent = 0 ↔ extent = 1) := by
  refine ⟨?_, ?_, ?_, ?_, ?_, ?_⟩
  · intro d b ch y x hmw
    exact hmw
  · intro d b ch y x hmw
    unfold gaussianWeightVal
    have hmwR : (0 : ℝ) < ((d.mask_weight : ℚ) : ℝ) := by exact_mod_cast hmw
    exact mul_pos (mul_pos (gaussianProb_pos _ _) (gaussianProb_pos _ _)) hmwR
  · intro extent k hE h0 h1
    obtain ⟨hl, hr⟩ := quarticSupport_bounds extent k hE h0 h1
    refine ⟨hl, hr, ?_, ?_⟩
    · intro h
      rw [h] at hr
      norm_num at hr
    · intro h
      rw [h] at hl
      norm_num at hl
  · intro d b ch y x hH hW hy0 hy1 hx0 hx1 hmw
    unfold quarticWeightVal
    exact mul_pos (mul_pos (quarticProb_pos _ _ hH hy0 hy1)
      (quarticProb_pos _ _ hW hx0 hx1)) hmw
  · intro l r c hpos hcov
    have hc := accumContributors_pos l r c hpos hcov
    refine ⟨hc, ?_⟩
    unfold blendedNoisePred nanToNumDiv
    rw [if_neg (ne_of_gt hc)]
  · intro extent
    unfold quarticDenominator
    constructor
    · intro h
      have : (extent : ℚ) = 1 := by linarith
      exact_mod_cast this
    · intro h
      rw [h]
      norm_num

/-- C10 (witness): concrete positivity of all three builders over the
latent-extent-3 region with unit weight, the support bound at its edge
index, and the positive contributor with well-defined division at the
covered cell `(0, 0)`. -/
theorem maskWeightsPositiveBlendDefined_witness :
    ((0 : ℚ) < sampleDiff3.mask_weight ∧
      0 < constantWeightVal sampleDiff3 0 0 0 0) ∧
    (0 < gaussianWeightVal sampleDiff3 0 0 0 0) ∧
    ((2 : ℤ) ≤ 3 ∧ (-(199/200 : ℚ) ≤ quarticSupport 3 2 ∧
      quarticSupport 3 2 ≤ 199/200 ∧
      quarticSupport 3 2 ≠ 1 ∧ quarticSupport 3 2 ≠ -1)) ∧
    (0 < quarticWeightVal sampleDiff3 0 0 1 1) ∧
    ((∃ b ∈ [sampleBlend1], coversLatent b.reg 0 0) ∧
      0 < accumContributors [sampleBlend1] 0 0 ∧
      blendedNoisePred [sampleBlend1] 0 0 =
        accumNoisePred [sampleBlend1] 0 0 / accumContributors [sampleBlend1] 0 0) := by
  refine ⟨⟨by decide, ?_⟩, ?_, ⟨by decide, ?_⟩, ?_, ⟨by decide, ?_, ?_⟩⟩
  · exact maskWeightsPositiveBlendDefined.1 sampleDiff3 0 0 0 0 (by decide)
  · exact maskWeightsPositiveBlendDefined.2.1 sampleDiff3 0 0 0 0 (by decide)
  · exact maskWeightsPositiveBlendDefined.2.2.1 3 2 (by decide) (by decide) (by decide)
  · exact maskWeightsPositiveBlendDefined.2.2.2.1 sampleDiff3 0 0 1 1 (by decide)
      (by decide) (by decide) (by decide) (by decide) (by decide) (by decide)
  · exact (maskWeightsPositiveBlendDefined.2.2.2.2.1 [sampleBlend1] 0 0
      (by decide) (by decide)).1
  · exact (maskWeightsPositiveBlendDefined.2.2.2.2.1 [sampleBlend1] 0 0
      (by decide) (by decide)).2

end CanvasSpec
